import Mathlib

/-!
Shallow embedding of the angio-core-lab backend:
`DatabaseManager` and `AngioServer` (src/unnamed/part_002) and
`BackupManager` / `AuthController` (src/unnamed/part_003).

The SQLite store is modelled as lists of typed rows (one list per table,
list order = insertion order, AUTOINCREMENT ids carried as explicit
next-id counters).  SQLite `REAL` is modelled as `Rat`.  Each mutating
operation returns the updated store together with an `Except` outcome, so
that the rows persisted by a *failed* call are visible in the result —
the JavaScript code runs its inserts sequentially with no transaction,
and a thrown constraint error leaves the earlier inserts committed.
-/

namespace AngioLab

/-- A row of the `users` table (part_002 lines 36-45). -/
structure UserRow where
  id : Nat
  email : String
  password : String
  name : String
  role : String
  active : Nat
  created_at : String
  last_login : Option String
deriving DecidableEq

/-- The projection returned by `getUserById` (part_002 line 184):
`SELECT id, email, name, role, created_at, last_login` — no password column. -/
structure UserPublic where
  id : Nat
  email : String
  name : String
  role : String
  created_at : String
  last_login : Option String
deriving DecidableEq

/-- A row of the `patients` table (part_002 lines 48-58). -/
structure PatientRow where
  id : Nat
  patient_id : String
  name : String
  date_of_birth : String
  gender : String
  created_by : Nat
  created_at : String
  updated_at : String
deriving DecidableEq

/-- A row of the `studies` table (part_002 lines 61-67). -/
structure StudyRow where
  id : Nat
  name : String
  description : Option String
  active : Nat
  created_at : String
deriving DecidableEq

/-- A row of the `procedures` table (part_002 lines 70-82). -/
structure ProcedureRow where
  id : Nat
  patient_id : Nat
  study_id : Option Nat
  study_name : String
  procedure_date : String
  performed_by : Nat
  notes : Option String
  created_at : String
deriving DecidableEq

/-- A row of the `vessel_measurements` table (part_002 lines 85-93);
`stenosis_percentage REAL` carries `CHECK(stenosis_percentage >= 0 AND
stenosis_percentage <= 100)`. -/
structure VesselMeasurementRow where
  id : Nat
  procedure_id : Nat
  vessel_name : String
  stenosis_percentage : Rat
  measurement_method : Option String
  notes : Option String
deriving DecidableEq

/-- A row of the `audit_log` table (part_002 lines 96-106). -/
structure AuditRow where
  id : Nat
  user_id : Option Nat
  action : String
  table_name : String
  record_id : Option Nat
  old_values : Option String
  new_values : Option String
  timestamp : String
deriving DecidableEq

/-- The whole SQLite store: one list per table (list order = rowid /
insertion order) plus the per-table AUTOINCREMENT counters. -/
structure DB where
  users : List UserRow
  patients : List PatientRow
  studies : List StudyRow
  procedures : List ProcedureRow
  vessel_measurements : List VesselMeasurementRow
  audit_log : List AuditRow
  nextUserId : Nat
  nextPatientId : Nat
  nextStudyId : Nat
  nextProcedureId : Nat
  nextMeasurementId : Nat
deriving DecidableEq

/-- The distinguishable error outcomes of the SQLite layer as the
JavaScript code observes them: a UNIQUE-constraint failure (the only one
the server layer inspects, via `error.message.includes('UNIQUE')`), a
CHECK-constraint failure, a FOREIGN KEY failure, and the explicit
`Patient not found` throw. -/
inductive DbError where
  | uniqueViolation
  | checkViolation
  | fkViolation
  | notFound
deriving DecidableEq

/-- The `role TEXT CHECK(role IN ('admin', 'technician', 'physician'))`. -/
def roleValid (r : String) : Bool :=
  r == "admin" || r == "technician" || r == "physician"

/-- The `gender TEXT CHECK(gender IN ('M', 'F', 'Other'))`. -/
def genderValid (g : String) : Bool :=
  g == "M" || g == "F" || g == "Other"

/-- The `CHECK` on `stenosis_percentage` (part_002 line 89). -/
def stenosisInRange (x : Rat) : Bool :=
  decide (0 ≤ x) && decide (x ≤ 100)

def publicOfUser (u : UserRow) : UserPublic :=
  ⟨u.id, u.email, u.name, u.role, u.created_at, u.last_login⟩

/-- The `getUserByEmail` (part_002 line 180):
`SELECT * FROM users WHERE email = ? AND active = 1`.  SQLite `=` on TEXT
is the BINARY collation, i.e. exact case-sensitive comparison. -/
def getUserByEmail (db : DB) (email : String) : Option UserRow :=
  db.users.find? (fun u => u.email == email && u.active == 1)

/-- The `getUserById` (part_002 line 184): selects only the non-password
columns, `WHERE id = ? AND active = 1`. -/
def getUserById (db : DB) (id : Nat) : Option UserPublic :=
  (db.users.find? (fun u => u.id == id && u.active == 1)).map publicOfUser

/-- The `createUser` (part_002 lines 167-177): a single INSERT into `users`
(UNIQUE on email, CHECK on role), then a read-back via `getUserById`.
On a constraint violation the insert commits nothing. -/
def createUser (db : DB) (email password name role createdAt : String) :
    DB × Except DbError (Option UserPublic) :=
  if db.users.any (fun u => u.email == email) then
    (db, .error .uniqueViolation)
  else if !roleValid role then
    (db, .error .checkViolation)
  else
    let u : UserRow := ⟨db.nextUserId, email, password, name, role, 1, createdAt, none⟩
    let db' : DB := { db with users := db.users ++ [u], nextUserId := db.nextUserId + 1 }
    (db', .ok (getUserById db' u.id))

def getPatientById (db : DB) (id : Nat) : Option PatientRow :=
  db.patients.find? (fun p => p.id == id)

/-- The `getPatientByPatientId` (part_002 line 209): lookup by the external
`patient_id` string, exact comparison. -/
def getPatientByPatientId (db : DB) (patientId : String) : Option PatientRow :=
  db.patients.find? (fun p => p.patient_id == patientId)

/-- The `createPatient` (part_002 lines 213-223): one INSERT into `patients`
(UNIQUE on patient_id, CHECK on gender, FK on created_by), then a
read-back via `getPatientById`.  `updated_at` is set to `createdAt`. -/
def createPatient (db : DB) (patientId name dateOfBirth gender : String)
    (createdBy : Nat) (createdAt : String) :
    DB × Except DbError (Option PatientRow) :=
  if db.patients.any (fun p => p.patient_id == patientId) then
    (db, .error .uniqueViolation)
  else if !genderValid gender then
    (db, .error .checkViolation)
  else if !(db.users.any (fun u => u.id == createdBy)) then
    (db, .error .fkViolation)
  else
    let p : PatientRow :=
      ⟨db.nextPatientId, patientId, name, dateOfBirth, gender, createdBy, createdAt, createdAt⟩
    let db' : DB := { db with patients := db.patients ++ [p], nextPatientId := db.nextPatientId + 1 }
    (db', .ok (getPatientById db' p.id))

/-- The HTTP status the server's `createPatient` handler produces
(part_002 lines 575-591): 201 on success, 409 (`Conflict`) when the
thrown message contains `UNIQUE`, 500 otherwise. -/
def createPatientStatus (r : Except DbError (Option PatientRow)) : Nat :=
  match r with
  | .ok _ => 201
  | .error .uniqueViolation => 409
  | .error _ => 500

/-- The HTTP status of `AuthController.register` (part_003 lines
263-301): 201 on success, 409 when the message contains `UNIQUE`,
500 otherwise. -/
def registerStatus (r : Except DbError (Option UserPublic)) : Nat :=
  match r with
  | .ok _ => 201
  | .error .uniqueViolation => 409
  | .error _ => 500

/-- A patient annotated as by `getPatients` (part_002 lines 192-203):
the joined `created_by_name` and the computed `procedure_count`. -/
structure PatientWithCount where
  row : PatientRow
  created_by_name : Option String
  procedure_count : Nat
deriving DecidableEq

/-- The `COUNT(pr.id)` of the procedures joined on `p.id = pr.patient_id`. -/
def procedureCount (db : DB) (patientRowId : Nat) : Nat :=
  (db.procedures.filter (fun pr => pr.patient_id == patientRowId)).length

def annotatePatient (db : DB) (p : PatientRow) : PatientWithCount :=
  ⟨p, (db.users.find? (fun u => u.id == p.created_by)).map (fun u => u.name),
    procedureCount db p.id⟩

/-- The `ORDER BY p.created_at DESC` comparison (TEXT, so lexicographic). -/
def createdAtDesc (a b : PatientWithCount) : Bool :=
  decide (b.row.created_at ≤ a.row.created_at)

/-- The `getPatients` (part_002 lines 192-203): every patient annotated with
`created_by_name` and a live `procedure_count`, ordered by
`created_at DESC`, then `LIMIT ? OFFSET ?` (the server calls it with the
defaults limit = 100, offset = 0). -/
def getPatients (db : DB) (limit offset : Nat) : List PatientWithCount :=
  ((((db.patients.map (annotatePatient db)).mergeSort createdAtDesc).drop offset).take limit)

/-- A procedure row as returned by the read-back queries: joined
`performed_by_name` and the `json_group_array` of its vessel
measurements. -/
structure ProcedureWithVessels where
  row : ProcedureRow
  performed_by_name : Option String
  vessel_data : List VesselMeasurementRow
deriving DecidableEq

/-- The `LEFT JOIN vessel_measurements vm ON pr.id = vm.procedure_id`
aggregation: the measurements of a procedure in stored (insertion)
order. -/
def attachVessels (db : DB) (pr : ProcedureRow) : ProcedureWithVessels :=
  ⟨pr, (db.users.find? (fun u => u.id == pr.performed_by)).map (fun u => u.name),
    db.vessel_measurements.filter (fun vm => vm.procedure_id == pr.id)⟩

/-- The `ORDER BY pr.procedure_date DESC` comparison. -/
def procDateDesc (a b : ProcedureWithVessels) : Bool :=
  decide (b.row.procedure_date ≤ a.row.procedure_date)

/-- The `getProcedures` (part_002 lines 226-250): throws `Patient not found`
when the external id resolves to no patient; otherwise the patient's
procedures with their vessel measurements, ordered by
`procedure_date DESC`. -/
def getProcedures (db : DB) (patientExternalId : String) :
    Except DbError (List ProcedureWithVessels) :=
  match getPatientByPatientId db patientExternalId with
  | none => .error .notFound
  | some patient =>
    .ok (((db.procedures.filter (fun pr => pr.patient_id == patient.id)).map
      (attachVessels db)).mergeSort procDateDesc)

/-- One element of the `vesselData` array of a `createProcedure` request
(fields `vessel`, `stenosisPercentage`, optional `measurementMethod` and
`notes`). -/
structure VesselInput where
  vessel : String
  stenosisPercentage : Rat
  measurementMethod : Option String
  notes : Option String
deriving DecidableEq

/-- The input record of `DatabaseManager.createProcedure` (part_002
line 253). -/
structure ProcedureInput where
  patientId : String
  studyName : String
  procedureDate : String
  vesselData : List VesselInput
  performedBy : Nat
  notes : Option String
  createdAt : String
deriving DecidableEq

/-- The per-measurement insert loop of `createProcedure` (part_002 lines
279-284).  Each iteration is its own INSERT: when the CHECK constraint
on `stenosis_percentage` rejects a value, the loop stops with an error
but the measurements already inserted stay committed (there is no
enclosing transaction in the source). -/
def insertMeasurements (db : DB) (procId : Nat) :
    List VesselInput → DB × Option DbError
  | [] => (db, none)
  | v :: rest =>
    if stenosisInRange v.stenosisPercentage then
      let m : VesselMeasurementRow :=
        ⟨db.nextMeasurementId, procId, v.vessel, v.stenosisPercentage,
          v.measurementMethod, v.notes⟩
      insertMeasurements
        { db with vessel_measurements := db.vessel_measurements ++ [m],
                  nextMeasurementId := db.nextMeasurementId + 1 } procId rest
    else
      (db, some .checkViolation)

/-- The `createProcedure` (part_002 lines 252-304), step by step as the
source runs it: resolve the patient by external id (`Patient not found`
throw), get-or-create the study by exact name, INSERT the procedure row
(FK on `performed_by`), then INSERT each vessel measurement in order,
and finally read the procedure back joined with its measurements.
No transaction wraps the sequence, so the store returned on an error
keeps every row inserted before the failure. -/
def createProcedure (db : DB) (inp : ProcedureInput) :
    DB × Except DbError (Option ProcedureWithVessels) :=
  match getPatientByPatientId db inp.patientId with
  | none => (db, .error .notFound)
  | some patient =>
    let stPair : DB × StudyRow :=
      match db.studies.find? (fun s => s.name == inp.studyName) with
      | some s => (db, s)
      | none =>
        let s : StudyRow := ⟨db.nextStudyId, inp.studyName, none, 1, inp.createdAt⟩
        ({ db with studies := db.studies ++ [s], nextStudyId := db.nextStudyId + 1 }, s)
    let db1 := stPair.1
    let study := stPair.2
    if db1.users.any (fun u => u.id == inp.performedBy) then
      let pr : ProcedureRow :=
        ⟨db1.nextProcedureId, patient.id, some study.id, inp.studyName,
          inp.procedureDate, inp.performedBy, inp.notes, inp.createdAt⟩
      let db2 : DB :=
        { db1 with procedures := db1.procedures ++ [pr],
                   nextProcedureId := db1.nextProcedureId + 1 }
      let imr := insertMeasurements db2 pr.id inp.vesselData
      (imr.1,
        match imr.2 with
        | none =>
          .ok ((imr.1.procedures.find? (fun q => q.id == pr.id)).map (attachVessels imr.1))
        | some e => .error e)
    else
      (db1, .error .fkViolation)

/-- The express-validator rules on the `vesselData` field of
`POST /api/patients/:patientId/procedures` (part_002 lines 526-528):
`vesselData` must be an array (an empty array is an array), and the
wildcard rules - non-empty trimmed `vessel`, `stenosisPercentage` in
[0, 100] - are checked per element, so they hold vacuously for `[]`.
The `studyName` and `procedureDate` rules concern other fields and are
not modelled here. -/
def vesselDataRouteValid (vesselData : List VesselInput) : Bool :=
  vesselData.all (fun v =>
    decide (v.vessel.trim.length ≥ 1) && stenosisInRange v.stenosisPercentage)

/-- One patient of the full export, with the joined `created_by_name`
and the nested procedure list (part_002 lines 307-336). -/
structure ExportPatient where
  row : PatientRow
  created_by_name : Option String
  procedures : List ProcedureWithVessels
deriving DecidableEq

/-- The `ORDER BY p.patient_id` (ascending) comparison of the export. -/
def patientIdAsc (a b : ExportPatient) : Bool :=
  decide (a.row.patient_id ≤ b.row.patient_id)

/-- The `getFullExport` (part_002 lines 307-336): every patient ordered by
`patient_id`, each carrying its procedures ordered by
`procedure_date DESC` with their vessel measurements attached. -/
def getFullExport (db : DB) : List ExportPatient :=
  (db.patients.map (fun p =>
    ⟨p, (db.users.find? (fun u => u.id == p.created_by)).map (fun u => u.name),
      ((db.procedures.filter (fun pr => pr.patient_id == p.id)).map
        (attachVessels db)).mergeSort procDateDesc⟩)).mergeSort patientIdAsc

/-- The `getDatabaseData` (part_002 lines 390-399): a verbatim dump of the
six tables. -/
structure DatabaseData where
  users : List UserRow
  patients : List PatientRow
  studies : List StudyRow
  procedures : List ProcedureRow
  vessel_measurements : List VesselMeasurementRow
  audit_log : List AuditRow
deriving DecidableEq

def getDatabaseData (db : DB) : DatabaseData :=
  ⟨db.users, db.patients, db.studies, db.procedures, db.vessel_measurements, db.audit_log⟩

/-- The metadata envelope `BackupManager.createBackup` writes (part_003
lines 31-40). -/
structure BackupMetadata where
  version : String
  created_at : String
  database_version : String
  total_patients : Nat
  total_procedures : Nat
deriving DecidableEq

/-- A manual backup artifact: `{ metadata, data }` (part_003 lines
31-43).  Serialization is `JSON.stringify` / `JSON.parse`, modelled as
the identity on this structured value. -/
structure Backup where
  metadata : BackupMetadata
  data : DatabaseData
deriving DecidableEq

/-- A file of the backup directory: its name, its modification time
(`stats.mtime`, as an abstract tick count) and its parsed content. -/
structure BFile where
  name : String
  mtime : Nat
  content : Backup
deriving DecidableEq

/-- The manual backup file name `angio-lab-backup-<timestamp>.json`
(part_003 line 24). -/
def manualBackupName (timestamp : String) : String :=
  "angio-lab-backup-" ++ timestamp ++ ".json"

/-- The name test of `cleanupOldBackups` (part_003 line 88):
`file.startsWith('angio-lab-backup-') && file.endsWith('.json')`,
modelled on the character list of the name. -/
def isManualName (n : String) : Bool :=
  List.isPrefixOf ("angio-lab-backup-".data) n.data
    && List.isSuffixOf (".json".data) n.data

/-- The filter of `cleanupOldBackups`: manual artifacts are the files
named `angio-lab-backup-*.json`. -/
def isManualBackupFile (f : BFile) : Bool := isManualName f.name

/-- Sort key of the prune: modification time, oldest first
(part_003 line 105). -/
def mtimeAsc (a b : BFile) : Bool :=
  decide (a.mtime ≤ b.mtime)

/-- The `cleanupOldBackups` (part_003 lines 84-116): if more than
`maxBackups` manual artifacts exist, sort them by mtime ascending and
unlink the first `length - maxBackups` of them (deletion is by path,
i.e. by name). -/
def cleanupOldBackups (maxBackups : Nat) (dir : List BFile) : List BFile :=
  if (dir.filter isManualBackupFile).length > maxBackups then
    dir.filter (fun f =>
      !((((dir.filter isManualBackupFile).mergeSort mtimeAsc).take
          ((dir.filter isManualBackupFile).length - maxBackups)).any
        (fun g => g.name == f.name)))
  else dir

/-- The envelope `createBackup` assembles (part_003 lines 28-40): the
computed entity counts and the full `getDatabaseData` dump. -/
def mkBackup (db : DB) (createdAt : String) : Backup :=
  ⟨⟨"1.0.0", createdAt, "SQLite", db.patients.length, db.procedures.length⟩,
    getDatabaseData db⟩

/-- The `createBackup` (part_003 lines 19-53), the manual backup: write
`angio-lab-backup-<timestamp>.json` with the envelope, then prune with
`maxBackups = 50` (part_003 line 8); returns the new directory and the
artifact name. -/
def createBackup (db : DB) (dir : List BFile) (timestamp createdAt : String)
    (mtime : Nat) : List BFile × String :=
  let backupFileName := manualBackupName timestamp
  let dir' := dir ++ [⟨backupFileName, mtime, mkBackup db createdAt⟩]
  (cleanupOldBackups 50 dir', backupFileName)

/-- The `restoreBackup` (part_003 lines 176-196): read and parse the named
artifact and return it; the structural check `!backup.data ||
!backup.metadata` always passes for a value of type `Backup`, and a
missing file surfaces as an error. -/
def restoreBackup (dir : List BFile) (backupFileName : String) : Except DbError Backup :=
  match dir.find? (fun f => f.name == backupFileName) with
  | none => .error .notFound
  | some f => .ok f.content

/-- The number of manual backup artifacts in a directory. -/
def manualCount (dir : List BFile) : Nat :=
  (dir.filter isManualBackupFile).length

/-- A sequence of manual backup calls: each call snapshots some store
`db` at a timestamp `t`, creation time `c` and file mtime `m`, and the
directory evolves through `createBackup` (write, then prune). -/
def runBackups (dir : List BFile) : List (DB × String × String × Nat) → List BFile
  | [] => dir
  | cl :: calls => runBackups (createBackup cl.1 dir cl.2.1 cl.2.2.1 cl.2.2.2).1 calls

/-- One abstract mutating call against the store, as exposed by the
server routes: register (`createUser`), create patient, create
procedure. -/
inductive Op where
  | user (email password name role createdAt : String)
  | patient (patientId name dateOfBirth gender : String) (createdBy : Nat) (createdAt : String)
  | procedure (inp : ProcedureInput)

/-- The store left behind by one mutating call (successful or not). -/
def applyOp (db : DB) : Op → DB
  | .user e pw n r c => (createUser db e pw n r c).1
  | .patient pid n d g cb c => (createPatient db pid n d g cb c).1
  | .procedure inp => (createProcedure db inp).1

/-- The store after a sequence of mutating calls. -/
def runOps (db : DB) (ops : List Op) : DB := ops.foldl applyOp db

/-- The measurement rows the insert loop of `createProcedure` produces
for a list of inputs, starting at a given AUTOINCREMENT id. -/
def measRows (startId procId : Nat) : List VesselInput → List VesselMeasurementRow
  | [] => []
  | v :: rest =>
    ⟨startId, procId, v.vessel, v.stenosisPercentage, v.measurementMethod, v.notes⟩
      :: measRows (startId + 1) procId rest

/-- Replace every stored password by an arbitrary function of it: the
`users` table with its password column rewritten.  Used to state that
`getUserById` never depends on, nor returns, the password column. -/
def scrubPasswords (f : String → String) (db : DB) : DB :=
  { db with users := db.users.map (fun u => { u with password := f u.password }) }

/-- The external patient ids currently stored. -/
def patientIds (db : DB) : List String := db.patients.map (fun p => p.patient_id)

/-- Case-insensitive equality of two strings, character by character
(the comparison the spec prescribes for email uniqueness). -/
def lowerEq (a b : String) : Bool :=
  a.data.map Char.toLower == b.data.map Char.toLower

/-- The default admin user (part_002 lines 127-142 create it at startup). -/
def user0 : UserRow :=
  ⟨1, "admin@lab.com", "hash0", "System Administrator", "admin", 1,
    "2024-01-01T00:00:00.000Z", none⟩

/-- A deactivated technician user. -/
def userInactive : UserRow :=
  ⟨2, "tech@lab.com", "hash1", "Lab Technician", "technician", 0,
    "2024-01-01T00:00:00.000Z", none⟩

/-- The store right after initialization: the admin user only. -/
def db0 : DB := ⟨[user0], [], [], [], [], [], 2, 1, 1, 1, 1⟩

/-- A store holding an active and a deactivated user. -/
def dbI : DB := ⟨[user0, userInactive], [], [], [], [], [], 3, 1, 1, 1, 1⟩

/-- The `db0` after a successful `createPatient` of patient `P-100`. -/
def dbP : DB :=
  (createPatient db0 "P-100" "A. Rivera" "1970-01-01" "F" 1 "2024-02-01T00:00:00.000Z").1

/-- A `createProcedure` request with an empty vessel-measurement list. -/
def emptyVesselInput : ProcedureInput :=
  ⟨"P-100", "VIKING", "2024-09-20", [], 1, none, "2024-03-01T00:00:00.000Z"⟩

/-- A `createProcedure` request whose second measurement violates the
stenosis CHECK constraint (150 ∉ [0, 100]). -/
def midFailInput : ProcedureInput :=
  ⟨"P-100", "VIKING", "2024-09-20",
    [⟨"LAD", 50, none, none⟩, ⟨"RCA", 150, none, none⟩], 1, none,
    "2024-03-01T00:00:00.000Z"⟩

/-! ### Helper lemmas about the embedded operations -/

/-- The measurement insert loop touches only the `vessel_measurements`
table and its id counter. -/
theorem insertMeasurements_tables (procId : Nat) (vs : List VesselInput) :
    ∀ db : DB,
      (insertMeasurements db procId vs).1.users = db.users ∧
      (insertMeasurements db procId vs).1.patients = db.patients ∧
      (insertMeasurements db procId vs).1.studies = db.studies ∧
      (insertMeasurements db procId vs).1.procedures = db.procedures ∧
      (insertMeasurements db procId vs).1.audit_log = db.audit_log := by
  induction vs with
  | nil => intro db; exact ⟨rfl, rfl, rfl, rfl, rfl⟩
  | cons v rest ih =>
    intro db
    unfold insertMeasurements
    split
    · exact ih _
    · exact ⟨rfl, rfl, rfl, rfl, rfl⟩

/-- When every stenosis value passes the CHECK constraint, the loop
inserts one row per input, in order, and reports no error. -/
theorem insertMeasurements_ok (procId : Nat) (vs : List VesselInput)
    (hv : ∀ v ∈ vs, stenosisInRange v.stenosisPercentage = true) :
    ∀ db : DB,
      insertMeasurements db procId vs =
        ({ db with
            vessel_measurements :=
              db.vessel_measurements ++ measRows db.nextMeasurementId procId vs
            nextMeasurementId := db.nextMeasurementId + vs.length }, none) := by
  induction vs with
  | nil => intro db; simp [insertMeasurements, measRows]
  | cons v rest ih =>
    intro db
    have hvr : ∀ w ∈ rest, stenosisInRange w.stenosisPercentage = true :=
      fun w hw => hv w (List.mem_cons_of_mem v hw)
    unfold insertMeasurements
    rw [if_pos (hv v (List.mem_cons_self v rest))]
    rw [ih hvr]
    simp [measRows, Nat.add_comm, Nat.add_assoc, Nat.add_left_comm]

/-- When the stenosis sequence has an out-of-range value, the loop
commits exactly the rows before the first bad value and stops with a
CHECK violation; the bad row and everything after it are never
inserted. -/
theorem insertMeasurements_fail (procId : Nat) (good : List VesselInput)
    (bad : VesselInput) (rest : List VesselInput)
    (hg : ∀ v ∈ good, stenosisInRange v.stenosisPercentage = true)
    (hb : stenosisInRange bad.stenosisPercentage = false) :
    ∀ db : DB,
      insertMeasurements db procId (good ++ bad :: rest) =
        ({ db with
            vessel_measurements :=
              db.vessel_measurements ++ measRows db.nextMeasurementId procId good
            nextMeasurementId := db.nextMeasurementId + good.length }, some .checkViolation) := by
  induction good with
  | nil =>
    intro db
    unfold insertMeasurements
    rw [List.nil_append]
    simp only [hb]
    simp [measRows]
  | cons v rest' ih =>
    intro db
    have hvr : ∀ w ∈ rest', stenosisInRange w.stenosisPercentage = true :=
      fun w hw => hg w (List.mem_cons_of_mem v hw)
    rw [List.cons_append]
    unfold insertMeasurements
    rw [if_pos (hg v (List.mem_cons_self v rest'))]
    rw [ih hvr]
    simp [measRows, Nat.add_comm, Nat.add_assoc, Nat.add_left_comm]

/-- Neither the study upsert nor the procedure insert of
`createProcedure` touches `users`, `patients` or `audit_log`. -/
theorem createProcedure_untouched (db : DB) (inp : ProcedureInput) :
    (createProcedure db inp).1.users = db.users ∧
    (createProcedure db inp).1.patients = db.patients ∧
    (createProcedure db inp).1.audit_log = db.audit_log := by
  unfold createProcedure
  cases hp : getPatientByPatientId db inp.patientId with
  | none => exact ⟨rfl, rfl, rfl⟩
  | some patient =>
    cases hst : db.studies.find? (fun s => s.name == inp.studyName) with
    | some s =>
      simp only
      split
      · exact ⟨(insertMeasurements_tables _ _ _).1, (insertMeasurements_tables _ _ _).2.1,
          (insertMeasurements_tables _ _ _).2.2.2.2⟩
      · exact ⟨rfl, rfl, rfl⟩
    | none =>
      simp only
      split
      · exact ⟨(insertMeasurements_tables _ _ _).1, (insertMeasurements_tables _ _ _).2.1,
          (insertMeasurements_tables _ _ _).2.2.2.2⟩
      · exact ⟨rfl, rfl, rfl⟩

/-- C3 (amended): no mutating operation of the backend writes the audit
log.  `createUser`, `createPatient` and `createProcedure` leave
`audit_log` exactly as it was — the `audit_log` table is provisioned by
`createTables` but no code path ever inserts into it. -/
theorem claim_C3_theorem (db : DB) (e pw n r c : String)
    (pid nm dob g : String) (cb : Nat) (ca : String) (inp : ProcedureInput) :
    (createUser db e pw n r c).1.audit_log = db.audit_log ∧
    (createPatient db pid nm dob g cb ca).1.audit_log = db.audit_log ∧
    (createProcedure db inp).1.audit_log = db.audit_log := by
  refine ⟨?_, ?_, (createProcedure_untouched db inp).2.2⟩
  · unfold createUser
    split
    · rfl
    · split
      · rfl
      · rfl
  · unfold createPatient
    split
    · rfl
    · split
      · rfl
      · split
        · rfl
        · rfl

/-- C3 is false as stated: on the store holding only the admin user, a
`createPatient` call succeeds yet appends no `AuditEntry` at all — in
particular no entry with action `create` and table `patients`. -/
theorem claim_C3_counterexample :
    (createPatient db0 "P-100" "A. Rivera" "1970-01-01" "F" 1
        "2024-02-01T00:00:00.000Z").2.isOk = true ∧
    (createPatient db0 "P-100" "A. Rivera" "1970-01-01" "F" 1
        "2024-02-01T00:00:00.000Z").1.audit_log = [] :=
  ⟨rfl, rfl⟩

/-- C2 (amended): `createProcedure` with an empty vessel-measurement
sequence does not fail — when the patient exists and the performer id is
valid it succeeds, persists a Procedure row, and inserts no vessel
measurement (the route validator `isArray` accepts `[]` and the
per-element rules hold vacuously, and `DatabaseManager.createProcedure`
never checks for emptiness). -/
theorem claim_C2_theorem (db : DB) (inp : ProcedureInput) (patient : PatientRow)
    (hv : inp.vesselData = [])
    (hp : getPatientByPatientId db inp.patientId = some patient)
    (hu : (db.users.any (fun u => u.id == inp.performedBy)) = true) :
    (createProcedure db inp).2.isOk = true ∧
    (createProcedure db inp).1.procedures.length = db.procedures.length + 1 ∧
    (createProcedure db inp).1.vessel_measurements = db.vessel_measurements := by
  unfold createProcedure
  rw [hp]
  cases hst : db.studies.find? (fun s => s.name == inp.studyName) with
  | some s =>
    simp only
    rw [if_pos hu]
    simp [hv, insertMeasurements, Except.isOk, Except.toBool]
  | none =>
    simp only
    rw [if_pos hu]
    simp [hv, insertMeasurements, Except.isOk, Except.toBool]

/-- C2 is false as stated: with patient `P-100` present, the
empty-vessel request passes the route validation, succeeds, and persists
a Procedure row — it neither fails with `Validation` nor leaves the
store unchanged. -/
theorem claim_C2_counterexample :
    vesselDataRouteValid emptyVesselInput.vesselData = true ∧
    (createProcedure dbP emptyVesselInput).2.isOk = true ∧
    (createProcedure dbP emptyVesselInput).1.procedures.length = 1 :=
  ⟨rfl, rfl, rfl⟩

/-- Witness for the amended C2 at the concrete store `dbP`. -/
theorem claim_C2_witness :
    (createProcedure dbP emptyVesselInput).2.isOk = true ∧
    (createProcedure dbP emptyVesselInput).1.procedures.length
      = dbP.procedures.length + 1 ∧
    (createProcedure dbP emptyVesselInput).1.vessel_measurements
      = dbP.vessel_measurements :=
  claim_C2_theorem dbP emptyVesselInput
    ⟨1, "P-100", "A. Rivera", "1970-01-01", "F", 1,
      "2024-02-01T00:00:00.000Z", "2024-02-01T00:00:00.000Z"⟩
    rfl rfl rfl

/-- C9 (amended): `createUser` fails with `Conflict` (HTTP 409 via the
register handler's UNIQUE check) only on an *exact, case-sensitive*
duplicate of a stored email, leaving the store unchanged; an email not
exactly present — even one differing from a stored email only in case —
is inserted as a new user row.  SQLite's `email TEXT UNIQUE` uses the
BINARY collation and `getUserByEmail` compares with `=`, so nothing in
the code compares emails case-insensitively. -/
theorem claim_C9_theorem (db : DB) (email pw n r c : String) :
    ((db.users.any (fun u => u.email == email)) = true →
      createUser db email pw n r c = (db, .error .uniqueViolation) ∧
      registerStatus (createUser db email pw n r c).2 = 409) ∧
    ((db.users.any (fun u => u.email == email)) = false → roleValid r = true →
      (createUser db email pw n r c).1.users.map (fun u => u.email)
        = db.users.map (fun u => u.email) ++ [email]) := by
  constructor
  · intro h
    unfold createUser
    rw [if_pos h]
    exact ⟨rfl, rfl⟩
  · intro h hr
    unfold createUser
    rw [if_neg (by simp [h]), if_neg (by simp [hr])]
    simp

/-- C9 is false as stated: the store already holds `admin@lab.com`, and
`createUser` with `Admin@lab.com` — equal to it under case-insensitive
comparison — succeeds and persists a second user row instead of failing
with `Conflict`. -/
theorem claim_C9_counterexample :
    lowerEq "Admin@lab.com" user0.email = true ∧
    (createUser db0 "Admin@lab.com" "pw2" "Second Admin" "admin"
        "2024-02-02T00:00:00.000Z").2.isOk = true ∧
    (createUser db0 "Admin@lab.com" "pw2" "Second Admin" "admin"
        "2024-02-02T00:00:00.000Z").1.users.length = 2 :=
  ⟨rfl, rfl, rfl⟩

/-- Witness for the amended C9: an exact duplicate of the stored
`admin@lab.com` is rejected with 409 and the store is unchanged. -/
theorem claim_C9_witness :
    createUser db0 "admin@lab.com" "pw2" "X Y" "admin" "2024-02-02T00:00:00.000Z"
      = (db0, .error .uniqueViolation) ∧
    registerStatus (createUser db0 "admin@lab.com" "pw2" "X Y" "admin"
        "2024-02-02T00:00:00.000Z").2 = 409 :=
  (claim_C9_theorem db0 "admin@lab.com" "pw2" "X Y" "admin"
    "2024-02-02T00:00:00.000Z").1 rfl

/-- C10: a stored user whose `active` flag is 0 is invisible to both
`getUserById` and `getUserByEmail` (their queries filter on
`active = 1`), yet stays in the `users` table; and `getUserById` is
oblivious to the password column — its result is unchanged under any
rewriting of every stored password, matching its column list, which
omits `password`. -/
theorem claim_C10_theorem (db : DB) (u : UserRow) (id : Nat) (f : String → String)
    (hmem : u ∈ db.users) (hact : u.active = 0) :
    ((db.users.map (fun v => v.id)).Nodup → getUserById db u.id = none) ∧
    ((db.users.map (fun v => v.email)).Nodup → getUserByEmail db u.email = none) ∧
    getUserById (scrubPasswords f db) id = getUserById db id := by
  refine ⟨?_, ?_, ?_⟩
  · intro hnd
    have hnone : db.users.find? (fun v => v.id == u.id && v.active == 1) = none := by
      rw [List.find?_eq_none]
      intro v hv hpv
      have h1 : v.id = u.id ∧ v.active = 1 := by
        simpa [Bool.and_eq_true, beq_iff_eq] using hpv
      obtain ⟨hid, hactv⟩ := h1
      have hvu : v = u := List.inj_on_of_nodup_map hnd hv hmem hid
      rw [hvu, hact] at hactv
      exact absurd hactv (by decide)
    unfold getUserById
    rw [hnone]
    rfl
  · intro hnd
    rw [getUserByEmail, List.find?_eq_none]
    intro v hv hpv
    have h1 : v.email = u.email ∧ v.active = 1 := by
      simpa [Bool.and_eq_true, beq_iff_eq] using hpv
    obtain ⟨hem, hactv⟩ := h1
    have hvu : v = u := List.inj_on_of_nodup_map hnd hv hmem hem
    rw [hvu, hact] at hactv
    exact absurd hactv (by decide)
  · unfold getUserById scrubPasswords
    simp only [List.find?_map]
    rw [Option.map_map]
    rfl

/-- Witness for C10 on a store with an active admin and a deactivated
technician. -/
theorem claim_C10_witness :
    getUserById dbI 2 = none ∧
    getUserByEmail dbI "tech@lab.com" = none ∧
    getUserById (scrubPasswords (fun _ => "") dbI) 1 = getUserById dbI 1 := by
  have h := claim_C10_theorem dbI userInactive 1 (fun _ => "") (by decide) rfl
  exact ⟨h.1 (by decide), h.2.1 (by decide), h.2.2⟩

/-- The `createUser` never touches the `patients` table. -/
theorem createUser_patients (db : DB) (e pw n r c : String) :
    (createUser db e pw n r c).1.patients = db.patients := by
  unfold createUser
  split
  · rfl
  · split
    · rfl
    · rfl

/-- The `createPatient` leaves `patients` unchanged or — only when no exact
duplicate of the external id exists — appends exactly the new row. -/
theorem createPatient_patients (db : DB) (pid n d g : String) (cb : Nat) (c : String) :
    (createPatient db pid n d g cb c).1.patients = db.patients ∨
    ((db.patients.any (fun p => p.patient_id == pid)) = false ∧
      (createPatient db pid n d g cb c).1.patients
        = db.patients ++ [⟨db.nextPatientId, pid, n, d, g, cb, c, c⟩]) := by
  unfold createPatient
  split_ifs with h1 h2 h3
  · exact Or.inl rfl
  · exact Or.inl rfl
  · exact Or.inl rfl
  · exact Or.inr ⟨by simpa using h1, rfl⟩

/-- One mutating call preserves distinctness of the stored external
patient ids. -/
theorem applyOp_patientIds_nodup (db : DB) (op : Op)
    (h : (patientIds db).Nodup) : (patientIds (applyOp db op)).Nodup := by
  cases op with
  | user e pw n r c =>
    show ((createUser db e pw n r c).1.patients.map (fun p => p.patient_id)).Nodup
    rw [createUser_patients]
    exact h
  | patient pid n d g cb c =>
    show ((createPatient db pid n d g cb c).1.patients.map (fun p => p.patient_id)).Nodup
    rcases createPatient_patients db pid n d g cb c with hsame | ⟨hany, happ⟩
    · rw [hsame]; exact h
    · rw [happ, List.map_append, List.nodup_append]
      refine ⟨h, List.nodup_singleton _, ?_⟩
      intro a ha hb
      simp only [List.map_cons, List.map_nil, List.mem_singleton] at hb
      subst hb
      rw [List.mem_map] at ha
      obtain ⟨p, hp, hpe⟩ := ha
      have hne := (List.any_eq_false.mp hany) p hp
      rw [beq_iff_eq] at hne
      exact hne hpe
  | procedure inp =>
    show ((createProcedure db inp).1.patients.map (fun p => p.patient_id)).Nodup
    rw [(createProcedure_untouched db inp).2.1]
    exact h

/-- Any sequence of mutating calls preserves distinctness of the stored
external patient ids. -/
theorem runOps_patientIds_nodup (ops : List Op) :
    ∀ db : DB, (patientIds db).Nodup → (patientIds (runOps db ops)).Nodup := by
  induction ops with
  | nil => intro db h; exact h
  | cons op rest ih =>
    intro db h
    exact ih (applyOp db op) (applyOp_patientIds_nodup db op h)

/-- C4: `createPatient` with an external id exactly (case-sensitively)
equal to a stored one fails — the server maps the UNIQUE violation to
HTTP 409, `Conflict` — and the store is unchanged; with a fresh id and
route-valid input the new Patient row is appended and returned; and any
sequence of mutating operations keeps `patient_id` unique across all
stored patients. -/
theorem claim_C4_theorem (db : DB) (pid n d g : String) (cb : Nat) (c : String) :
    ((∃ p ∈ db.patients, p.patient_id = pid) →
      createPatient db pid n d g cb c = (db, .error .uniqueViolation) ∧
      createPatientStatus (createPatient db pid n d g cb c).2 = 409) ∧
    ((∀ p ∈ db.patients, p.patient_id ≠ pid) → genderValid g = true →
      (∃ u ∈ db.users, u.id = cb) → (∀ p ∈ db.patients, p.id ≠ db.nextPatientId) →
      (createPatient db pid n d g cb c).1.patients
          = db.patients ++ [⟨db.nextPatientId, pid, n, d, g, cb, c, c⟩] ∧
        (createPatient db pid n d g cb c).2
          = .ok (some ⟨db.nextPatientId, pid, n, d, g, cb, c, c⟩)) ∧
    (∀ ops : List Op, (patientIds db).Nodup → (patientIds (runOps db ops)).Nodup) := by
  refine ⟨?_, ?_, fun ops h => runOps_patientIds_nodup ops db h⟩
  · rintro ⟨p, hp, hpe⟩
    have hany : (db.patients.any (fun q => q.patient_id == pid)) = true :=
      List.any_eq_true.mpr ⟨p, hp, by rw [beq_iff_eq]; exact hpe⟩
    unfold createPatient
    rw [if_pos hany]
    exact ⟨rfl, rfl⟩
  · intro hno hg ⟨u, hu, hue⟩ hfresh
    have hany : (db.patients.any (fun q => q.patient_id == pid)) = false := by
      rw [List.any_eq_false]
      intro q hq
      rw [beq_iff_eq]
      exact hno q hq
    have huany : (db.users.any (fun v => v.id == cb)) = true :=
      List.any_eq_true.mpr ⟨u, hu, by rw [beq_iff_eq]; exact hue⟩
    have hfind : db.patients.find? (fun q => q.id == db.nextPatientId) = none := by
      rw [List.find?_eq_none]
      intro q hq
      rw [beq_iff_eq]
      exact hfresh q hq
    unfold createPatient
    rw [if_neg (by simp [hany]), if_neg (by simp [hg]), if_neg (by simp [huany])]
    refine ⟨rfl, ?_⟩
    simp only [getPatientById, List.find?_append, hfind, Option.none_or]
    simp

/-- Witness for C4: re-creating `P-100` on the store that already holds
it is rejected with 409 and changes nothing. -/
theorem claim_C4_witness :
    createPatient dbP "P-100" "B. Other" "1980-05-05" "M" 1 "2024-03-02T00:00:00.000Z"
      = (dbP, .error .uniqueViolation) ∧
    createPatientStatus (createPatient dbP "P-100" "B. Other" "1980-05-05" "M" 1
        "2024-03-02T00:00:00.000Z").2 = 409 :=
  (claim_C4_theorem dbP "P-100" "B. Other" "1980-05-05" "M" 1
      "2024-03-02T00:00:00.000Z").1
    ⟨⟨1, "P-100", "A. Rivera", "1970-01-01", "F", 1, "2024-02-01T00:00:00.000Z",
        "2024-02-01T00:00:00.000Z"⟩, by decide, rfl⟩

/-- The `created_at DESC` comparator is transitive. -/
theorem createdAtDesc_trans (a b c : PatientWithCount) :
    createdAtDesc a b → createdAtDesc b c → createdAtDesc a c := by
  simp only [createdAtDesc, decide_eq_true_eq]
  exact fun h1 h2 => le_trans h2 h1

/-- The `created_at DESC` comparator is total. -/
theorem createdAtDesc_total (a b : PatientWithCount) :
    createdAtDesc a b || createdAtDesc b a := by
  simp only [createdAtDesc, Bool.or_eq_true, decide_eq_true_eq]
  exact le_total b.row.created_at a.row.created_at

/-- An element strictly above every other element of the list comes out
first in the sorted order. -/
theorem mergeSort_head_unique {α : Type} (le : α → α → Bool)
    (htrans : ∀ a b c, le a b → le b c → le a c)
    (htotal : ∀ a b, le a b || le b a)
    (l : List α) (e : α) (he : e ∈ l)
    (hstrict : ∀ x ∈ l, x ≠ e → le x e = false) :
    ∃ rest, l.mergeSort le = e :: rest := by
  have hpw := List.sorted_mergeSort htrans htotal l
  cases hms : l.mergeSort le with
  | nil =>
    have hmem : e ∈ l.mergeSort le := List.mem_mergeSort.mpr he
    rw [hms] at hmem
    exact absurd hmem (List.not_mem_nil e)
  | cons a rest =>
    rw [hms] at hpw
    have hmem : e ∈ l.mergeSort le := List.mem_mergeSort.mpr he
    rw [hms] at hmem
    by_cases hae : a = e
    · exact ⟨rest, by rw [hae]⟩
    · have hal : a ∈ l := by
        have ha : a ∈ l.mergeSort le := by
          rw [hms]
          exact List.mem_cons_self a rest
        exact List.mem_mergeSort.mp ha
      have herest : e ∈ rest := by
        rcases List.mem_cons.mp hmem with h | h
        · exact absurd h.symm hae
        · exact h
      have hle : le a e = true := (List.pairwise_cons.mp hpw).1 e herest
      have hfalse : le a e = false := hstrict a hal hae
      rw [hfalse] at hle
      exact absurd hle (by decide)

/-- The store a successful `createPatient` leaves behind. -/
theorem createPatient_success (db : DB) (pid n d g : String) (cb : Nat) (c : String)
    (hno : (db.patients.any (fun p => p.patient_id == pid)) = false)
    (hg : genderValid g = true)
    (hu : (db.users.any (fun v => v.id == cb)) = true) :
    (createPatient db pid n d g cb c).1
      = { db with patients := db.patients ++ [⟨db.nextPatientId, pid, n, d, g, cb, c, c⟩], nextPatientId := db.nextPatientId + 1 } := by
  unfold createPatient
  rw [if_neg (by simp [hno]), if_neg (by simp [hg]), if_neg (by simp [hu])]

/-- C5: `listPatients` returns the stored patients ordered by
`created_at` descending, each annotated with a live `procedure_count`
(the current number of Procedure rows referencing it); and right after a
valid `createPatient` whose timestamp is newer than every stored row,
the default listing (`limit 100, offset 0`) contains the new patient
exactly once, with `procedure_count = 0`. -/
theorem claim_C5_theorem (db : DB) (limit offset : Nat)
    (pid n dob g : String) (cb : Nat) (c : String) :
    (getPatients db limit offset).Pairwise
      (fun a b => b.row.created_at ≤ a.row.created_at) ∧
    (∀ x ∈ getPatients db limit offset, x.row ∈ db.patients ∧
      x.procedure_count
        = (db.procedures.filter (fun pr => pr.patient_id == x.row.id)).length) ∧
    ((∀ p ∈ db.patients, p.patient_id ≠ pid) → genderValid g = true →
      (∃ u ∈ db.users, u.id = cb) →
      (∀ p ∈ db.patients, p.created_at < c) →
      (∀ pr ∈ db.procedures, pr.patient_id ≠ db.nextPatientId) →
      ((getPatients (createPatient db pid n dob g cb c).1 100 0).filter
          (fun x => x.row.patient_id == pid)).map (fun x => x.procedure_count)
        = [0]) := by
  refine ⟨?_, ?_, ?_⟩
  · have hpw := List.sorted_mergeSort createdAtDesc_trans createdAtDesc_total
      (db.patients.map (annotatePatient db))
    have hsub : List.Sublist (getPatients db limit offset)
        ((db.patients.map (annotatePatient db)).mergeSort createdAtDesc) := by
      unfold getPatients
      exact List.Sublist.trans (List.take_sublist _ _) (List.drop_sublist _ _)
    exact (List.Pairwise.sublist hsub hpw).imp (fun h => of_decide_eq_true h)
  · intro x hx
    have hx' : x ∈ db.patients.map (annotatePatient db) := by
      unfold getPatients at hx
      exact List.mem_mergeSort.mp (List.drop_subset _ _ (List.take_subset _ _ hx))
    obtain ⟨q, hq, rfl⟩ := List.mem_map.mp hx'
    exact ⟨hq, rfl⟩
  · intro hno hg ⟨u, hu, hue⟩ hca hproc
    have hany : (db.patients.any (fun q => q.patient_id == pid)) = false := by
      rw [List.any_eq_false]
      intro q hq
      rw [beq_iff_eq]
      exact hno q hq
    have huany : (db.users.any (fun v => v.id == cb)) = true :=
      List.any_eq_true.mpr ⟨u, hu, by rw [beq_iff_eq]; exact hue⟩
    rw [createPatient_success db pid n dob g cb c hany hg huany]
    set p : PatientRow := ⟨db.nextPatientId, pid, n, dob, g, cb, c, c⟩ with hpdef
    set db' : DB := { db with patients := db.patients ++ [p], nextPatientId := db.nextPatientId + 1 } with hdb'
    set e : PatientWithCount := annotatePatient db' p with hedef
    set l : List PatientWithCount := db'.patients.map (annotatePatient db') with hldef
    have hlsplit : l = db.patients.map (annotatePatient db') ++ [e] := by
      rw [hldef, hdb']
      exact List.map_append _ _ _
    have hel : e ∈ l := by
      rw [hlsplit]
      exact List.mem_append_right _ (List.mem_singleton.mpr rfl)
    have hstrict : ∀ x ∈ l, x ≠ e → createdAtDesc x e = false := by
      intro x hx hxe
      rw [hlsplit] at hx
      rcases List.mem_append.mp hx with h | h
      · obtain ⟨q, hq, rfl⟩ := List.mem_map.mp h
        have hlt : q.created_at < c := hca q hq
        simp only [createdAtDesc, decide_eq_false_iff_not, not_le]
        exact hlt
      · exact absurd (List.mem_singleton.mp h) hxe
    obtain ⟨rest, hms⟩ := mergeSort_head_unique createdAtDesc
      createdAtDesc_trans createdAtDesc_total l e hel hstrict
    have hfl : l.filter (fun x => x.row.patient_id == pid) = [e] := by
      rw [hlsplit, List.filter_append]
      have h1 : (db.patients.map (annotatePatient db')).filter
          (fun x => x.row.patient_id == pid) = [] := by
        rw [List.filter_eq_nil_iff]
        intro x hx
        obtain ⟨q, hq, rfl⟩ := List.mem_map.mp hx
        simp only [annotatePatient, beq_iff_eq]
        exact hno q hq
      have h2 : List.filter (fun x => x.row.patient_id == pid) [e] = [e] := by
        rw [List.filter_singleton]
        show (bif pid == pid then [e] else []) = [e]
        rw [beq_self_eq_true]
        rfl
      rw [h1, h2, List.nil_append]
    have hfsorted : (l.mergeSort createdAtDesc).filter
        (fun x => x.row.patient_id == pid) = [e] := by
      have hperm := (List.mergeSort_perm l createdAtDesc).filter
        (fun x => x.row.patient_id == pid)
      rw [hfl] at hperm
      exact List.perm_singleton.mp hperm
    have hfrest : rest.filter (fun x => x.row.patient_id == pid) = [] := by
      rw [hms] at hfsorted
      rw [List.filter_cons_of_pos (by rw [beq_iff_eq]; rfl)] at hfsorted
      exact (List.cons.inj hfsorted).2
    have hcount : e.procedure_count = 0 := by
      show (db'.procedures.filter (fun pr => pr.patient_id == p.id)).length = 0
      have hnilf : db'.procedures.filter (fun pr => pr.patient_id == p.id) = [] := by
        rw [List.filter_eq_nil_iff]
        intro pr hpr
        simp only [beq_iff_eq]
        exact hproc pr hpr
      rw [hnilf]
      rfl
    show List.map (fun x => x.procedure_count)
        (List.filter (fun x => x.row.patient_id == pid)
          (List.take 100
            (List.drop 0 ((db'.patients.map (annotatePatient db')).mergeSort createdAtDesc))))
      = [0]
    rw [← hldef, List.drop_zero, hms]
    show (((e :: rest).take (99 + 1)).filter (fun x => x.row.patient_id == pid)).map
        (fun x => x.procedure_count) = [0]
    rw [List.take_succ_cons]
    rw [List.filter_cons_of_pos (by rw [beq_iff_eq]; rfl)]
    have htake : (rest.take 99).filter (fun x => x.row.patient_id == pid) = [] := by
      have hsubf : List.Sublist ((rest.take 99).filter (fun x => x.row.patient_id == pid))
          (rest.filter (fun x => x.row.patient_id == pid)) :=
        List.Sublist.filter _ (List.take_sublist 99 rest)
      rw [hfrest] at hsubf
      exact List.sublist_nil.mp hsubf
    rw [htake, List.map_singleton, hcount]

/-- Witness for C5: creating `P-100` on the fresh store and listing with
the default limit shows that patient exactly once with a zero procedure
count. -/
theorem claim_C5_witness :
    ((getPatients (createPatient db0 "P-100" "A. Rivera" "1970-01-01" "F" 1
          "2024-02-01T00:00:00.000Z").1 100 0).filter
        (fun x => x.row.patient_id == "P-100")).map (fun x => x.procedure_count)
      = [0] :=
  (claim_C5_theorem db0 100 0 "P-100" "A. Rivera" "1970-01-01" "F" 1
      "2024-02-01T00:00:00.000Z").2.2 (by decide) rfl
    ⟨user0, by decide, rfl⟩ (by decide) (by decide)

/-- The `procedure_date DESC` comparator is transitive. -/
theorem procDateDesc_trans (a b c : ProcedureWithVessels) :
    procDateDesc a b → procDateDesc b c → procDateDesc a c := by
  simp only [procDateDesc, decide_eq_true_eq]
  exact fun h1 h2 => le_trans h2 h1

/-- The `procedure_date DESC` comparator is total. -/
theorem procDateDesc_total (a b : ProcedureWithVessels) :
    procDateDesc a b || procDateDesc b a := by
  simp only [procDateDesc, Bool.or_eq_true, decide_eq_true_eq]
  exact le_total b.row.procedure_date a.row.procedure_date

/-- C6: `getProcedures` fails with `NotFound` exactly when the external
patient id resolves to no patient; otherwise it returns precisely that
patient's procedure rows (as a permutation of the stored ones), ordered
by `procedure_date` descending, each carrying the vessel measurements
whose `procedure_id` references it, in stored (insertion) order. -/
theorem claim_C6_theorem (db : DB) (pid : String) :
    (getPatientByPatientId db pid = none → getProcedures db pid = .error .notFound) ∧
    (∀ patient : PatientRow, getPatientByPatientId db pid = some patient →
      ∃ l, getProcedures db pid = .ok l ∧
        l.Pairwise (fun a b => b.row.procedure_date ≤ a.row.procedure_date) ∧
        l.Perm ((db.procedures.filter (fun pr => pr.patient_id == patient.id)).map
          (attachVessels db)) ∧
        (∀ x ∈ l, x.row ∈ db.procedures ∧ x.row.patient_id = patient.id ∧
          x.vessel_data
            = db.vessel_measurements.filter (fun vm => vm.procedure_id == x.row.id))) := by
  constructor
  · intro h
    unfold getProcedures
    rw [h]
  · intro patient hp
    unfold getProcedures
    rw [hp]
    refine ⟨_, rfl, ?_, ?_, ?_⟩
    · exact (List.sorted_mergeSort procDateDesc_trans procDateDesc_total _).imp
        (fun h => of_decide_eq_true h)
    · exact List.mergeSort_perm _ _
    · intro x hx
      have hx' := List.mem_mergeSort.mp hx
      obtain ⟨pr, hpr, rfl⟩ := List.mem_map.mp hx'
      have hprm := List.mem_filter.mp hpr
      exact ⟨hprm.1, by simpa [beq_iff_eq] using hprm.2, rfl⟩

/-- Witness for C6: an unknown external id is `NotFound` on `dbP`, and
the known id `P-100` yields its (empty) ordered procedure list. -/
theorem claim_C6_witness :
    getProcedures dbP "ZZZ" = .error .notFound ∧
    (∃ l, getProcedures dbP "P-100" = .ok l ∧
      l.Pairwise (fun a b => b.row.procedure_date ≤ a.row.procedure_date) ∧
      l.Perm ((dbP.procedures.filter (fun pr => pr.patient_id == (1 : Nat))).map
        (attachVessels dbP)) ∧
      (∀ x ∈ l, x.row ∈ dbP.procedures ∧ x.row.patient_id = 1 ∧
        x.vessel_data
          = dbP.vessel_measurements.filter (fun vm => vm.procedure_id == x.row.id))) :=
  ⟨(claim_C6_theorem dbP "ZZZ").1 rfl,
    (claim_C6_theorem dbP "P-100").2
      ⟨1, "P-100", "A. Rivera", "1970-01-01", "F", 1, "2024-02-01T00:00:00.000Z",
        "2024-02-01T00:00:00.000Z"⟩ rfl⟩

/-- C1 (amended): `createProcedure` is not atomic.  When a
vessel-measurement insert fails mid-sequence (an out-of-range
`stenosis_percentage`), the rows already inserted stay committed: the
procedure row persists and exactly the measurements before the failing
one persist; the failing measurement and all later ones are absent, and
the call surfaces the constraint error. -/
theorem claim_C1_theorem (db : DB) (inp : ProcedureInput) (patient : PatientRow)
    (good : List VesselInput) (bad : VesselInput) (rest : List VesselInput)
    (hv : inp.vesselData = good ++ bad :: rest)
    (hg : ∀ v ∈ good, stenosisInRange v.stenosisPercentage = true)
    (hb : stenosisInRange bad.stenosisPercentage = false)
    (hp : getPatientByPatientId db inp.patientId = some patient)
    (hu : (db.users.any (fun u => u.id == inp.performedBy)) = true) :
    (createProcedure db inp).2 = .error .checkViolation ∧
    (createProcedure db inp).1.procedures.length = db.procedures.length + 1 ∧
    (createProcedure db inp).1.vessel_measurements
      = db.vessel_measurements
          ++ measRows db.nextMeasurementId db.nextProcedureId good := by
  unfold createProcedure
  rw [hp]
  cases hst : db.studies.find? (fun s => s.name == inp.studyName) with
  | some s =>
    simp only
    rw [if_pos hu, hv, insertMeasurements_fail _ good bad rest hg hb]
    simp
  | none =>
    simp only
    rw [if_pos hu, hv, insertMeasurements_fail _ good bad rest hg hb]
    simp

/-- C1 is false as stated: a call on `dbP` whose second measurement is
out of range fails, yet afterwards the store holds the procedure row and
the first (`LAD`) measurement created by the very same call. -/
theorem claim_C1_counterexample :
    (createProcedure dbP midFailInput).2 = .error .checkViolation ∧
    (createProcedure dbP midFailInput).1.procedures.length = 1 ∧
    ((createProcedure dbP midFailInput).1.vessel_measurements.map
      (fun m => m.vessel_name)) = ["LAD"] :=
  ⟨rfl, rfl, rfl⟩

/-- Witness for the amended C1 at the concrete mid-failing request. -/
theorem claim_C1_witness :
    (createProcedure dbP midFailInput).2 = .error .checkViolation ∧
    (createProcedure dbP midFailInput).1.procedures.length
      = dbP.procedures.length + 1 ∧
    (createProcedure dbP midFailInput).1.vessel_measurements
      = dbP.vessel_measurements
          ++ measRows dbP.nextMeasurementId dbP.nextProcedureId
              [⟨"LAD", 50, none, none⟩] :=
  claim_C1_theorem dbP midFailInput
    ⟨1, "P-100", "A. Rivera", "1970-01-01", "F", 1, "2024-02-01T00:00:00.000Z",
      "2024-02-01T00:00:00.000Z"⟩
    [⟨"LAD", 50, none, none⟩] ⟨"RCA", 150, none, none⟩ [] rfl
    (by decide) (by decide) rfl rfl

/-- The mtime comparator is transitive. -/
theorem mtimeAsc_trans (a b c : BFile) :
    mtimeAsc a b → mtimeAsc b c → mtimeAsc a c := by
  simp only [mtimeAsc, decide_eq_true_eq]
  exact fun h1 h2 => le_trans h1 h2

/-- The mtime comparator is total. -/
theorem mtimeAsc_total (a b : BFile) : mtimeAsc a b || mtimeAsc b a := by
  simp only [mtimeAsc, Bool.or_eq_true, decide_eq_true_eq]
  exact le_total a.mtime b.mtime

/-- Pruning only removes files. -/
theorem cleanupOldBackups_sublist (maxB : Nat) (d : List BFile) :
    List.Sublist (cleanupOldBackups maxB d) d := by
  unfold cleanupOldBackups
  split
  · exact List.filter_sublist d
  · exact List.Sublist.refl d

/-- The `find?` returns the unique element satisfying the predicate. -/
theorem find?_eq_some_of_unique {α : Type} (p : α → Bool) (L : List α) (x : α)
    (hx : x ∈ L) (hpx : p x = true) (huniq : ∀ y ∈ L, p y = true → y = x) :
    L.find? p = some x := by
  induction L with
  | nil => cases hx
  | cons a L ih =>
    by_cases hpa : p a = true
    · rw [List.find?_cons_of_pos _ hpa]
      exact congrArg some (huniq a (List.mem_cons_self a L) hpa)
    · rw [List.find?_cons_of_neg _ (by simpa using hpa)]
      rcases List.mem_cons.mp hx with rfl | hxL
      · exact absurd hpx hpa
      · exact ih hxL (fun y hy hpy => huniq y (List.mem_cons_of_mem a hy) hpy)

/-- Removing the (unique) file with a given name from a directory with
distinct names drops exactly one entry. -/
theorem length_filter_ne_name (x : BFile) :
    ∀ L : List BFile, x ∈ L → ((L.map (fun f => f.name)).Nodup) →
      (L.filter (fun f => !(x.name == f.name))).length = L.length - 1 := by
  intro L
  induction L with
  | nil => intro hx; cases hx
  | cons a L ih =>
    intro hx hnd
    rw [List.map_cons, List.nodup_cons] at hnd
    rcases List.mem_cons.mp hx with rfl | hxL
    · rw [List.filter_cons_of_neg (by simp)]
      have hall : L.filter (fun f => !(x.name == f.name)) = L := by
        rw [List.filter_eq_self]
        intro b hb
        simp only [Bool.not_eq_eq_eq_not, Bool.not_true, beq_eq_false_iff_ne, ne_eq]
        intro heq
        exact hnd.1 (heq ▸ List.mem_map_of_mem (fun f => f.name) hb)
      rw [hall]
      simp
    · have hne : ¬ x.name = a.name := by
        intro heq
        exact hnd.1 (heq ▸ List.mem_map_of_mem (fun f => f.name) hxL)
      rw [List.filter_cons_of_pos (by simpa using fun h => hne h)]
      simp only [List.length_cons]
      rw [ih hxL hnd.2]
      have : 1 ≤ L.length := List.length_pos.mpr (List.ne_nil_of_mem hxL)
      omega

/-- Deleting a set of distinct-named entries from a directory with
distinct names removes exactly that many files. -/
theorem length_filter_not_any (D : List BFile) :
    ∀ L : List BFile, (∀ f ∈ D, f ∈ L) →
      ((L.map (fun f => f.name)).Nodup) → ((D.map (fun f => f.name)).Nodup) →
      (L.filter (fun f => !(D.any (fun g => g.name == f.name)))).length
        = L.length - D.length := by
  induction D with
  | nil =>
    intro L _ _ _
    simp
  | cons d D ih =>
    intro L hDL hndL hndD
    rw [List.map_cons, List.nodup_cons] at hndD
    have hsplit : L.filter (fun f => !((d :: D).any (fun g => g.name == f.name)))
        = (L.filter (fun f => !(d.name == f.name))).filter
            (fun f => !(D.any (fun g => g.name == f.name))) := by
      rw [List.filter_filter]
      apply List.filter_congr
      intro b _
      simp only [List.any_cons, Bool.not_or, Bool.and_comm]
    rw [hsplit]
    have hdL : d ∈ L := hDL d (List.mem_cons_self d D)
    have hlen1 := length_filter_ne_name d L hdL hndL
    have hDsub : ∀ f ∈ D, f ∈ L.filter (fun f => !(d.name == f.name)) := by
      intro f hf
      rw [List.mem_filter]
      refine ⟨hDL f (List.mem_cons_of_mem d hf), ?_⟩
      simp only [Bool.not_eq_eq_eq_not, Bool.not_true, beq_eq_false_iff_ne, ne_eq]
      intro heq
      exact hndD.1 (heq ▸ List.mem_map_of_mem (fun f => f.name) hf)
    have hndL' : ((L.filter (fun f => !(d.name == f.name))).map
        (fun f => f.name)).Nodup :=
      List.Nodup.sublist (List.Sublist.map _ (List.filter_sublist L)) hndL
    rw [ih _ hDsub hndL' hndD.2, hlen1]
    have : 1 ≤ L.length := List.length_pos.mpr (List.ne_nil_of_mem hdL)
    simp only [List.length_cons]
    omega

/-- Pruning leaves `min (manual count) maxB` manual artifacts. -/
theorem cleanupOldBackups_count (maxB : Nat) (d : List BFile)
    (hnd : (d.map (fun f => f.name)).Nodup) :
    manualCount (cleanupOldBackups maxB d) = min (manualCount d) maxB := by
  unfold manualCount cleanupOldBackups
  split
  case isTrue h =>
    have hcomm : (d.filter (fun f =>
          !((((d.filter isManualBackupFile).mergeSort mtimeAsc).take
              ((d.filter isManualBackupFile).length - maxB)).any
            (fun g => g.name == f.name)))).filter isManualBackupFile
        = (d.filter isManualBackupFile).filter (fun f =>
          !((((d.filter isManualBackupFile).mergeSort mtimeAsc).take
              ((d.filter isManualBackupFile).length - maxB)).any
            (fun g => g.name == f.name))) := by
      rw [List.filter_filter, List.filter_filter]
      apply List.filter_congr
      intro b _
      rw [Bool.and_comm]
    rw [hcomm]
    have hndmf : ((d.filter isManualBackupFile).map (fun f => f.name)).Nodup :=
      List.Nodup.sublist (List.Sublist.map _ (List.filter_sublist d)) hnd
    have hndsorted : (((d.filter isManualBackupFile).mergeSort mtimeAsc).map
        (fun f => f.name)).Nodup :=
      ((List.mergeSort_perm (d.filter isManualBackupFile) mtimeAsc).map
        (fun f => f.name)).nodup_iff.mpr hndmf
    have hndtd : ((((d.filter isManualBackupFile).mergeSort mtimeAsc).take
        ((d.filter isManualBackupFile).length - maxB)).map (fun f => f.name)).Nodup :=
      List.Nodup.sublist (List.Sublist.map _ (List.take_sublist _ _)) hndsorted
    have hsub : ∀ f ∈ (((d.filter isManualBackupFile).mergeSort mtimeAsc).take
        ((d.filter isManualBackupFile).length - maxB)), f ∈ d.filter isManualBackupFile :=
      fun f hf => List.mem_mergeSort.mp (List.take_subset _ _ hf)
    rw [length_filter_not_any _ _ hsub hndmf hndtd]
    rw [List.length_take, List.length_mergeSort]
    omega
  case isFalse h =>
    omega

/-- Every file the prune deletes is no newer than any manual file it
retains. -/
theorem cleanupOldBackups_order (maxB : Nat) (d : List BFile)
    (hnd : (d.map (fun f => f.name)).Nodup) :
    ∀ f ∈ d, f ∉ cleanupOldBackups maxB d →
      ∀ g ∈ cleanupOldBackups maxB d, isManualBackupFile g = true →
        f.mtime ≤ g.mtime := by
  intro f hf hfout g hg hgman
  unfold cleanupOldBackups at hfout hg
  by_cases hc : (d.filter isManualBackupFile).length > maxB
  case neg =>
    rw [if_neg hc] at hfout
    exact absurd hf hfout
  case pos =>
    rw [if_pos hc] at hfout hg
    have hpf : ((((d.filter isManualBackupFile).mergeSort mtimeAsc).take
        ((d.filter isManualBackupFile).length - maxB)).any
          (fun g2 => g2.name == f.name)) = true := by
      by_contra hcon
      rw [Bool.not_eq_true] at hcon
      exact hfout (List.mem_filter.mpr ⟨hf, by rw [hcon]; rfl⟩)
    obtain ⟨dd, hdd, hddname⟩ := List.any_eq_true.mp hpf
    rw [beq_iff_eq] at hddname
    have hddmf : dd ∈ d.filter isManualBackupFile :=
      List.mem_mergeSort.mp (List.take_subset _ _ hdd)
    have hddd : dd ∈ d := (List.mem_filter.mp hddmf).1
    have hddf : dd = f := List.inj_on_of_nodup_map hnd hddd hf hddname
    have hftake : f ∈ (((d.filter isManualBackupFile).mergeSort mtimeAsc).take
        ((d.filter isManualBackupFile).length - maxB)) := hddf ▸ hdd
    have hgmem := List.mem_filter.mp hg
    have hgnot : g ∉ (((d.filter isManualBackupFile).mergeSort mtimeAsc).take
        ((d.filter isManualBackupFile).length - maxB)) := by
      intro hgtd
      have h2 := hgmem.2
      rw [Bool.not_eq_true', List.any_eq_false] at h2
      exact (h2 g hgtd) (by rw [beq_iff_eq])
    have hgsorted : g ∈ (d.filter isManualBackupFile).mergeSort mtimeAsc :=
      List.mem_mergeSort.mpr (List.mem_filter.mpr ⟨hgmem.1, hgman⟩)
    have hsplit := List.take_append_drop
      ((d.filter isManualBackupFile).length - maxB)
      ((d.filter isManualBackupFile).mergeSort mtimeAsc)
    have hgdrop : g ∈ ((d.filter isManualBackupFile).mergeSort mtimeAsc).drop
        ((d.filter isManualBackupFile).length - maxB) := by
      have hmem2 := hgsorted
      rw [← hsplit] at hmem2
      rcases List.mem_append.mp hmem2 with h | h
      · exact absurd h hgnot
      · exact h
    have hpw := List.sorted_mergeSort mtimeAsc_trans mtimeAsc_total
      (d.filter isManualBackupFile)
    rw [← hsplit] at hpw
    have hmono := (List.pairwise_append.mp hpw).2.2 f hftake g hgdrop
    simpa [mtimeAsc, decide_eq_true_eq] using hmono

/-- One manual backup call: write the fresh artifact and prune; the
manual artifact count becomes `min (count + 1) 50`. -/
theorem createBackup_manualCount (db : DB) (dir : List BFile) (t c : String) (m : Nat)
    (hnd : (dir.map (fun f => f.name)).Nodup)
    (hfresh : ∀ f ∈ dir, f.name ≠ manualBackupName t)
    (hman : isManualName (manualBackupName t) = true) :
    manualCount (createBackup db dir t c m).1 = min (manualCount dir + 1) 50 := by
  have hnd' : ((dir ++ [(⟨manualBackupName t, m, mkBackup db c⟩ : BFile)]).map
      (fun f => f.name)).Nodup := by
    rw [List.map_append, List.nodup_append]
    refine ⟨hnd, List.nodup_singleton _, ?_⟩
    intro a ha hb
    simp only [List.map_cons, List.map_nil, List.mem_singleton] at hb
    obtain ⟨f, hf, rfl⟩ := List.mem_map.mp ha
    exact hfresh f hf hb
  show manualCount (cleanupOldBackups 50
      (dir ++ [(⟨manualBackupName t, m, mkBackup db c⟩ : BFile)])) = min (manualCount dir + 1) 50
  rw [cleanupOldBackups_count 50 _ hnd']
  have hstep : manualCount (dir ++ [(⟨manualBackupName t, m, mkBackup db c⟩ : BFile)])
      = manualCount dir + 1 := by
    unfold manualCount
    rw [List.filter_append]
    have hone : List.filter isManualBackupFile [(⟨manualBackupName t, m, mkBackup db c⟩ : BFile)]
        = [(⟨manualBackupName t, m, mkBackup db c⟩ : BFile)] := by
      rw [List.filter_singleton]
      show (bif isManualName (manualBackupName t) then _ else []) = _
      rw [hman]
      rfl
    rw [hone, List.length_append]
    rfl
  rw [hstep]

/-- After any nonempty sequence of manual backup calls with fresh,
pairwise-distinct artifact names, at most 50 manual artifacts remain. -/
theorem runBackups_manualCount_le (calls : List (DB × String × String × Nat)) :
    ∀ dir : List BFile, calls ≠ [] →
      (∀ cl ∈ calls, isManualName (manualBackupName cl.2.1) = true) →
      ((dir.map (fun f => f.name))
        ++ calls.map (fun cl => manualBackupName cl.2.1)).Nodup →
      manualCount (runBackups dir calls) ≤ 50 := by
  induction calls with
  | nil => intro dir hne _ _; exact absurd rfl hne
  | cons cl rest ih =>
    intro dir _ hmans hnodup
    have hnd : (dir.map (fun f => f.name)).Nodup := (List.nodup_append.mp hnodup).1
    have hfresh : ∀ f ∈ dir, f.name ≠ manualBackupName cl.2.1 := by
      intro f hf heq
      have hin : manualBackupName cl.2.1
          ∈ (cl :: rest).map (fun cl => manualBackupName cl.2.1) := by
        rw [List.map_cons]
        exact List.mem_cons_self _ _
      exact (List.nodup_append.mp hnodup).2.2 (List.mem_map_of_mem _ hf) (heq ▸ hin)
    have hcount := createBackup_manualCount cl.1 dir cl.2.1 cl.2.2.1 cl.2.2.2 hnd hfresh
      (hmans cl (List.mem_cons_self cl rest))
    cases rest with
    | nil =>
      show manualCount (runBackups (createBackup cl.1 dir cl.2.1 cl.2.2.1 cl.2.2.2).1 []) ≤ 50
      unfold runBackups
      rw [hcount]
      exact Nat.min_le_right _ _
    | cons cl2 rest2 =>
      show manualCount (runBackups (createBackup cl.1 dir cl.2.1 cl.2.2.1 cl.2.2.2).1
        (cl2 :: rest2)) ≤ 50
      apply ih _ (by intro h; cases h)
        (fun cl' hcl' => hmans cl' (List.mem_cons_of_mem cl hcl'))
      have hsubnames : List.Sublist
          (((createBackup cl.1 dir cl.2.1 cl.2.2.1 cl.2.2.2).1.map (fun f => f.name))
            ++ (cl2 :: rest2).map (fun cl => manualBackupName cl.2.1))
          (((dir ++ [(⟨manualBackupName cl.2.1, cl.2.2.2, mkBackup cl.1 cl.2.2.1⟩ : BFile)]).map
              (fun f => f.name))
            ++ (cl2 :: rest2).map (fun cl => manualBackupName cl.2.1)) :=
        List.Sublist.append (List.Sublist.map _ (cleanupOldBackups_sublist 50 _))
          (List.Sublist.refl _)
      refine List.Nodup.sublist hsubnames ?_
      rw [List.map_append, List.append_assoc]
      simpa using hnodup

/-- C7: one `createManualBackup` call leaves `min (count + 1) 50` manual
artifacts — in particular at most 50, and exactly 50 whenever the cap
was exceeded; every file the prune deletes is no newer (by mtime) than
every retained manual artifact, so the retained ones are the most
recent; and after any nonempty sequence of such calls at most 50 manual
artifacts remain. -/
theorem claim_C7_theorem (db : DB) (dir : List BFile) (t c : String) (m : Nat)
    (hnd : (dir.map (fun f => f.name)).Nodup)
    (hfresh : ∀ f ∈ dir, f.name ≠ manualBackupName t)
    (hman : isManualName (manualBackupName t) = true) :
    manualCount (createBackup db dir t c m).1 = min (manualCount dir + 1) 50 ∧
    manualCount (createBackup db dir t c m).1 ≤ 50 ∧
    (∀ f ∈ dir ++ [(⟨manualBackupName t, m, mkBackup db c⟩ : BFile)],
      f ∉ (createBackup db dir t c m).1 →
      ∀ g ∈ (createBackup db dir t c m).1, isManualBackupFile g = true →
        f.mtime ≤ g.mtime) ∧
    (∀ calls : List (DB × String × String × Nat), calls ≠ [] →
      (∀ cl ∈ calls, isManualName (manualBackupName cl.2.1) = true) →
      ((dir.map (fun f => f.name))
        ++ calls.map (fun cl => manualBackupName cl.2.1)).Nodup →
      manualCount (runBackups dir calls) ≤ 50) := by
  have hnd' : ((dir ++ [(⟨manualBackupName t, m, mkBackup db c⟩ : BFile)]).map
      (fun f => f.name)).Nodup := by
    rw [List.map_append, List.nodup_append]
    refine ⟨hnd, List.nodup_singleton _, ?_⟩
    intro a ha hb
    simp only [List.map_cons, List.map_nil, List.mem_singleton] at hb
    obtain ⟨f, hf, rfl⟩ := List.mem_map.mp ha
    exact hfresh f hf hb
  have hcount := createBackup_manualCount db dir t c m hnd hfresh hman
  refine ⟨hcount, ?_, ?_, fun calls => runBackups_manualCount_le calls dir⟩
  · rw [hcount]
    exact Nat.min_le_right _ _
  · exact cleanupOldBackups_order 50 _ hnd'

/-- Witness for C7: a single manual backup into an empty directory. -/
theorem claim_C7_witness :
    manualCount (createBackup db0 [] "T1" "C1" 0).1
      = min (manualCount ([] : List BFile) + 1) 50 :=
  (claim_C7_theorem db0 [] "T1" "C1" 0 (by decide) (by decide) (by decide)).1

/-- Sums of pointwise sums split. -/
theorem sum_map_add_nat {α : Type} (l : List α) (f g : α → Nat) :
    (l.map (fun x => f x + g x)).sum = (l.map f).sum + (l.map g).sum := by
  induction l with
  | nil => rfl
  | cons a l ih =>
    simp only [List.map_cons, List.sum_cons, ih]
    omega

/-- Summing an indicator over a duplicate-free list counts membership. -/
theorem sum_map_indicator (pid : Nat) : ∀ ids : List Nat, ids.Nodup →
    (ids.map (fun i => if pid = i then (1 : Nat) else 0)).sum
      = if pid ∈ ids then 1 else 0 := by
  intro ids
  induction ids with
  | nil => intro _; rfl
  | cons i ids ih =>
    intro hnd
    rw [List.nodup_cons] at hnd
    rw [List.map_cons, List.sum_cons, ih hnd.2]
    by_cases hpi : pid = i
    · subst hpi
      rw [if_pos rfl, if_neg hnd.1, if_pos (List.mem_cons_self pid ids)]
    · have hiff : pid ∈ i :: ids ↔ pid ∈ ids := by
        constructor
        · intro hc
          rcases List.mem_cons.mp hc with h | h
          · exact absurd h hpi
          · exact h
        · exact List.mem_cons_of_mem i
      rw [if_neg hpi]
      by_cases hm : pid ∈ ids
      · rw [if_pos hm, if_pos (hiff.mpr hm)]
      · rw [if_neg hm, if_neg (fun hc => hm (hiff.mp hc))]

/-- Partitioning rows by a duplicate-free, covering id list: the bucket
sizes sum to the total row count. -/
theorem sum_filter_lengths (procs : List ProcedureRow) : ∀ ids : List Nat, ids.Nodup →
    (∀ pr ∈ procs, pr.patient_id ∈ ids) →
    (ids.map (fun i => (procs.filter (fun pr => pr.patient_id == i)).length)).sum
      = procs.length := by
  induction procs with
  | nil =>
    intro ids _ _
    simp
  | cons pr procs ih =>
    intro ids hnd hcov
    have hstep : ∀ i ∈ ids,
        ((pr :: procs).filter (fun q => q.patient_id == i)).length
          = (procs.filter (fun q => q.patient_id == i)).length
            + (if pr.patient_id = i then 1 else 0) := by
      intro i _
      by_cases hpi : pr.patient_id = i
      · rw [List.filter_cons_of_pos (by rw [beq_iff_eq]; exact hpi), if_pos hpi,
          List.length_cons]
      · rw [List.filter_cons_of_neg (by simp [beq_iff_eq]; exact hpi), if_neg hpi,
          Nat.add_zero]
    rw [List.map_congr_left hstep, sum_map_add_nat,
      ih ids hnd (fun q hq => hcov q (List.mem_cons_of_mem pr hq)),
      sum_map_indicator _ ids hnd, if_pos (hcov pr (List.mem_cons_self pr procs)),
      List.length_cons]

/-- A file strictly newer than every other file of a duplicate-free
directory always survives the prune (for a positive cap). -/
theorem cleanupOldBackups_mem_newest (maxB : Nat) (hpos : 0 < maxB) (d : List BFile)
    (x : BFile) (hx : x ∈ d) (hnd : (d.map (fun f => f.name)).Nodup)
    (hnewest : ∀ f ∈ d, f ≠ x → f.mtime < x.mtime) :
    x ∈ cleanupOldBackups maxB d := by
  unfold cleanupOldBackups
  split
  case isFalse h => exact hx
  case isTrue h =>
    rw [List.mem_filter]
    refine ⟨hx, ?_⟩
    rw [Bool.not_eq_true', List.any_eq_false]
    intro dd hdd hbeq
    rw [beq_iff_eq] at hbeq
    have hddmf : dd ∈ d.filter isManualBackupFile :=
      List.mem_mergeSort.mp (List.take_subset _ _ hdd)
    have hddd : dd ∈ d := (List.mem_filter.mp hddmf).1
    have hddx : dd = x := List.inj_on_of_nodup_map hnd hddd hx hbeq
    subst hddx
    have hddup : d.Nodup := List.Nodup.of_map _ hnd
    have hcnt1 : List.count dd (d.filter isManualBackupFile) ≤ 1 := by
      calc List.count dd (d.filter isManualBackupFile)
          ≤ List.count dd d := List.Sublist.count_le (List.filter_sublist d) dd
        _ = 1 := List.count_eq_one_of_mem hddup hx
    have hcnts : List.count dd ((d.filter isManualBackupFile).mergeSort mtimeAsc) ≤ 1 := by
      rw [(List.mergeSort_perm (d.filter isManualBackupFile) mtimeAsc).count_eq]
      exact hcnt1
    have hdroplen : 0 < (((d.filter isManualBackupFile).mergeSort mtimeAsc).drop
        ((d.filter isManualBackupFile).length - maxB)).length := by
      rw [List.length_drop, List.length_mergeSort]
      omega
    obtain ⟨g, hg⟩ := List.exists_mem_of_length_pos hdroplen
    have hgsorted : g ∈ (d.filter isManualBackupFile).mergeSort mtimeAsc :=
      List.drop_subset _ _ hg
    have hgd : g ∈ d := (List.mem_filter.mp (List.mem_mergeSort.mp hgsorted)).1
    have hgne : g ≠ dd := by
      intro heq
      subst heq
      have h1 : 1 ≤ List.count g (((d.filter isManualBackupFile).mergeSort mtimeAsc).take
          ((d.filter isManualBackupFile).length - maxB)) :=
        List.count_pos_iff.mpr hdd
      have h2 : 1 ≤ List.count g (((d.filter isManualBackupFile).mergeSort mtimeAsc).drop
          ((d.filter isManualBackupFile).length - maxB)) :=
        List.count_pos_iff.mpr hg
      have hsum := List.take_append_drop
        ((d.filter isManualBackupFile).length - maxB)
        ((d.filter isManualBackupFile).mergeSort mtimeAsc)
      have : List.count g ((d.filter isManualBackupFile).mergeSort mtimeAsc)
          = List.count g (((d.filter isManualBackupFile).mergeSort mtimeAsc).take
              ((d.filter isManualBackupFile).length - maxB))
            + List.count g (((d.filter isManualBackupFile).mergeSort mtimeAsc).drop
              ((d.filter isManualBackupFile).length - maxB)) := by
        rw [← List.count_append, hsum]
      omega
    have hglt : g.mtime < dd.mtime := hnewest g hgd hgne
    have hpw := List.sorted_mergeSort mtimeAsc_trans mtimeAsc_total
      (d.filter isManualBackupFile)
    rw [← List.take_append_drop ((d.filter isManualBackupFile).length - maxB)
      ((d.filter isManualBackupFile).mergeSort mtimeAsc)] at hpw
    have hmono := (List.pairwise_append.mp hpw).2.2 dd hdd g hg
    rw [mtimeAsc, decide_eq_true_eq] at hmono
    omega

/-- Writing a manual backup and then retrieving it by the returned name
yields exactly the envelope that was written. -/
theorem createBackup_restore (db : DB) (dir : List BFile) (t c : String) (m : Nat)
    (hnd : (dir.map (fun f => f.name)).Nodup)
    (hfresh : ∀ f ∈ dir, f.name ≠ manualBackupName t)
    (hm : ∀ f ∈ dir, f.mtime < m) :
    restoreBackup (createBackup db dir t c m).1 (createBackup db dir t c m).2
      = .ok (mkBackup db c) := by
  have hnd' : ((dir ++ [(⟨manualBackupName t, m, mkBackup db c⟩ : BFile)]).map
      (fun f => f.name)).Nodup := by
    rw [List.map_append, List.nodup_append]
    refine ⟨hnd, List.nodup_singleton _, ?_⟩
    intro a ha hb
    simp only [List.map_cons, List.map_nil, List.mem_singleton] at hb
    obtain ⟨f, hf, rfl⟩ := List.mem_map.mp ha
    exact hfresh f hf hb
  have hnewest : ∀ f ∈ dir ++ [(⟨manualBackupName t, m, mkBackup db c⟩ : BFile)],
      f ≠ (⟨manualBackupName t, m, mkBackup db c⟩ : BFile) →
      f.mtime < (⟨manualBackupName t, m, mkBackup db c⟩ : BFile).mtime := by
    intro f hf hne
    rcases List.mem_append.mp hf with h | h
    · exact hm f h
    · exact absurd (List.mem_singleton.mp h) hne
  have hsurv := cleanupOldBackups_mem_newest 50 (by omega)
    (dir ++ [(⟨manualBackupName t, m, mkBackup db c⟩ : BFile)])
    (⟨manualBackupName t, m, mkBackup db c⟩ : BFile)
    (List.mem_append_right _ (List.mem_singleton.mpr rfl)) hnd' hnewest
  show restoreBackup (cleanupOldBackups 50
      (dir ++ [(⟨manualBackupName t, m, mkBackup db c⟩ : BFile)]))
    (manualBackupName t) = .ok (mkBackup db c)
  unfold restoreBackup
  have huniq : ∀ y ∈ cleanupOldBackups 50
      (dir ++ [(⟨manualBackupName t, m, mkBackup db c⟩ : BFile)]),
      (y.name == manualBackupName t) = true →
      y = (⟨manualBackupName t, m, mkBackup db c⟩ : BFile) := by
    intro y hy hpy
    rw [beq_iff_eq] at hpy
    have hydir : y ∈ dir ++ [(⟨manualBackupName t, m, mkBackup db c⟩ : BFile)] :=
      (cleanupOldBackups_sublist 50 _).subset hy
    rcases List.mem_append.mp hydir with h | h
    · exact absurd hpy (hfresh y h)
    · exact List.mem_singleton.mp h
  rw [find?_eq_some_of_unique _ _ _ hsurv (by rw [beq_iff_eq]) huniq]

/-- C8: with no concurrent writes, a manual backup round-trips: the
artifact retrieved under the returned name is exactly the envelope that
was written, and its per-entity record counts agree with `exportAll`
taken on the same store — the patient count equals the export's length
and the procedure count equals the total of the export's nested
procedure lists (likewise for the metadata counts). -/
theorem claim_C8_theorem (db : DB) (dir : List BFile) (t c : String) (m : Nat)
    (hnd : (dir.map (fun f => f.name)).Nodup)
    (hfresh : ∀ f ∈ dir, f.name ≠ manualBackupName t)
    (hm : ∀ f ∈ dir, f.mtime < m)
    (hpn : (db.patients.map (fun p => p.id)).Nodup)
    (href : ∀ pr ∈ db.procedures, pr.patient_id ∈ db.patients.map (fun p => p.id)) :
    restoreBackup (createBackup db dir t c m).1 (createBackup db dir t c m).2
      = .ok (mkBackup db c) ∧
    (mkBackup db c).data.patients.length = (getFullExport db).length ∧
    ((getFullExport db).map (fun ep => ep.procedures.length)).sum
      = (mkBackup db c).data.procedures.length ∧
    (mkBackup db c).metadata.total_patients = (getFullExport db).length ∧
    (mkBackup db c).metadata.total_procedures
      = ((getFullExport db).map (fun ep => ep.procedures.length)).sum := by
  have hlen : (getFullExport db).length = db.patients.length := by
    unfold getFullExport
    rw [List.length_mergeSort, List.length_map]
  have hsum : ((getFullExport db).map (fun ep => ep.procedures.length)).sum
      = db.procedures.length := by
    unfold getFullExport
    rw [List.Perm.sum_eq ((List.mergeSort_perm _ patientIdAsc).map
      (fun ep => ep.procedures.length))]
    rw [List.map_map]
    have hpoint : ∀ p ∈ db.patients,
        ((fun ep : ExportPatient => ep.procedures.length) ∘ (fun p : PatientRow =>
          (⟨p, (db.users.find? (fun u => u.id == p.created_by)).map (fun u => u.name),
            ((db.procedures.filter (fun pr => pr.patient_id == p.id)).map
              (attachVessels db)).mergeSort procDateDesc⟩ : ExportPatient))) p
        = (db.procedures.filter (fun pr => pr.patient_id == p.id)).length := by
      intro p _
      show (((db.procedures.filter (fun pr => pr.patient_id == p.id)).map
          (attachVessels db)).mergeSort procDateDesc).length = _
      rw [List.length_mergeSort, List.length_map]
    rw [List.map_congr_left hpoint]
    have hmm2 : db.patients.map
        (fun p => (db.procedures.filter (fun pr => pr.patient_id == p.id)).length)
        = (db.patients.map (fun p => p.id)).map
            (fun i => (db.procedures.filter (fun pr => pr.patient_id == i)).length) := by
      rw [List.map_map]
      rfl
    rw [hmm2]
    exact sum_filter_lengths db.procedures (db.patients.map (fun p => p.id)) hpn href
  refine ⟨createBackup_restore db dir t c m hnd hfresh hm, ?_, ?_, ?_, ?_⟩
  · rw [hlen]
    rfl
  · exact hsum
  · rw [hlen]
    rfl
  · exact hsum.symm

/-- Witness for C8: the store with one patient and no procedures,
backed up into an empty directory. -/
theorem claim_C8_witness :
    restoreBackup (createBackup dbP [] "T1" "C1" 3).1 (createBackup dbP [] "T1" "C1" 3).2
      = .ok (mkBackup dbP "C1") ∧
    (mkBackup dbP "C1").data.patients.length = (getFullExport dbP).length ∧
    ((getFullExport dbP).map (fun ep => ep.procedures.length)).sum
      = (mkBackup dbP "C1").data.procedures.length ∧
    (mkBackup dbP "C1").metadata.total_patients = (getFullExport dbP).length ∧
    (mkBackup dbP "C1").metadata.total_procedures
      = ((getFullExport dbP).map (fun ep => ep.procedures.length)).sum :=
  claim_C8_theorem dbP [] "T1" "C1" 3 (by decide) (by decide) (by decide)
    (by decide) (by decide)

end AngioLab
